import Mathlib

/-!
Verification of `find_shadow_admins` from
ShadowStrikeHQ/pa-permission-shadow-admin-finder (src/main.py).

`find_shadow_admins(user_permissions, effective_admin_permissions)`
receives two already-parsed JSON values (a user → permission-list mapping
and an admin-permission list) and returns the list of usernames whose
permission list contains every admin permission.  We model parsed
Python/JSON values with `PyVal`, dictionaries as ordered association
lists with string keys (Python dicts preserve insertion order and have
unique keys), and the `logging` side effects as an explicit list of
(level, message) events returned alongside the result.
-/

/-- Log levels used by the `logging` calls in `find_shadow_admins`. -/
inductive LogLevel where
  | info
  | warning
  | error
deriving DecidableEq, Repr

/-- A parsed Python/JSON value, as produced by `json.load` in main.py:
strings, integers, booleans, null, lists, and dictionaries (ordered
association lists with string keys, matching JSON objects and Python
dict insertion order). -/
inductive PyVal where
  | str (s : String)
  | int (n : Int)
  | bool (b : Bool)
  | none
  | list (xs : List PyVal)
  | dict (entries : List (String × PyVal))

mutual

/-- Structural equality on `PyVal`, modelling Python `==` on parsed JSON
values (used by the `perm in permissions` membership test). -/
def PyVal.beq : PyVal → PyVal → Bool
  | .str a, .str b => a == b
  | .int a, .int b => a == b
  | .bool a, .bool b => a == b
  | .none, .none => true
  | .list xs, .list ys => PyVal.beqList xs ys
  | .dict xs, .dict ys => PyVal.beqDict xs ys
  | _, _ => false

/-- Elementwise equality of two lists of `PyVal`s. -/
def PyVal.beqList : List PyVal → List PyVal → Bool
  | [], [] => true
  | x :: xs, y :: ys => PyVal.beq x y && PyVal.beqList xs ys
  | _, _ => false

/-- Entrywise equality of two ordered dictionaries. -/
def PyVal.beqDict : List (String × PyVal) → List (String × PyVal) → Bool
  | [], [] => true
  | (k, v) :: xs, (l, w) :: ys => k == l && PyVal.beq v w && PyVal.beqDict xs ys
  | _, _ => false

end

mutual

/-- `PyVal.beq` agrees with propositional equality. -/
theorem PyVal.beq_iff : (a b : PyVal) → (PyVal.beq a b = true ↔ a = b)
  | .str a, .str b => by simp [PyVal.beq]
  | .str a, .int b => by simp [PyVal.beq]
  | .str a, .bool b => by simp [PyVal.beq]
  | .str a, .none => by simp [PyVal.beq]
  | .str a, .list ys => by simp [PyVal.beq]
  | .str a, .dict ys => by simp [PyVal.beq]
  | .int a, .str b => by simp [PyVal.beq]
  | .int a, .int b => by simp [PyVal.beq]
  | .int a, .bool b => by simp [PyVal.beq]
  | .int a, .none => by simp [PyVal.beq]
  | .int a, .list ys => by simp [PyVal.beq]
  | .int a, .dict ys => by simp [PyVal.beq]
  | .bool a, .str b => by simp [PyVal.beq]
  | .bool a, .int b => by simp [PyVal.beq]
  | .bool a, .bool b => by simp [PyVal.beq]
  | .bool a, .none => by simp [PyVal.beq]
  | .bool a, .list ys => by simp [PyVal.beq]
  | .bool a, .dict ys => by simp [PyVal.beq]
  | .none, .str b => by simp [PyVal.beq]
  | .none, .int b => by simp [PyVal.beq]
  | .none, .bool b => by simp [PyVal.beq]
  | .none, .none => by simp [PyVal.beq]
  | .none, .list ys => by simp [PyVal.beq]
  | .none, .dict ys => by simp [PyVal.beq]
  | .list xs, .str b => by simp [PyVal.beq]
  | .list xs, .int b => by simp [PyVal.beq]
  | .list xs, .bool b => by simp [PyVal.beq]
  | .list xs, .none => by simp [PyVal.beq]
  | .list xs, .list ys => by
      rw [show PyVal.beq (.list xs) (.list ys) = PyVal.beqList xs ys from rfl]
      rw [PyVal.beqList_iff xs ys]
      simp
  | .list xs, .dict ys => by simp [PyVal.beq]
  | .dict xs, .str b => by simp [PyVal.beq]
  | .dict xs, .int b => by simp [PyVal.beq]
  | .dict xs, .bool b => by simp [PyVal.beq]
  | .dict xs, .none => by simp [PyVal.beq]
  | .dict xs, .list ys => by simp [PyVal.beq]
  | .dict xs, .dict ys => by
      rw [show PyVal.beq (.dict xs) (.dict ys) = PyVal.beqDict xs ys from rfl]
      rw [PyVal.beqDict_iff xs ys]
      simp

/-- `PyVal.beqList` agrees with propositional equality. -/
theorem PyVal.beqList_iff : (xs ys : List PyVal) → (PyVal.beqList xs ys = true ↔ xs = ys)
  | [], [] => by simp [PyVal.beqList]
  | [], y :: ys => by simp [PyVal.beqList]
  | x :: xs, [] => by simp [PyVal.beqList]
  | x :: xs, y :: ys => by
      rw [show PyVal.beqList (x :: xs) (y :: ys)
            = (PyVal.beq x y && PyVal.beqList xs ys) from rfl]
      rw [Bool.and_eq_true]
      rw [PyVal.beq_iff x y, PyVal.beqList_iff xs ys]
      simp

/-- `PyVal.beqDict` agrees with propositional equality. -/
theorem PyVal.beqDict_iff : (xs ys : List (String × PyVal)) → (PyVal.beqDict xs ys = true ↔ xs = ys)
  | [], [] => by simp [PyVal.beqDict]
  | [], y :: ys => by simp [PyVal.beqDict]
  | x :: xs, [] => by simp [PyVal.beqDict]
  | (k, v) :: xs, (l, w) :: ys => by
      rw [show PyVal.beqDict ((k, v) :: xs) ((l, w) :: ys)
            = (k == l && PyVal.beq v w && PyVal.beqDict xs ys) from rfl]
      rw [Bool.and_eq_true, Bool.and_eq_true]
      rw [PyVal.beq_iff v w, PyVal.beqDict_iff xs ys]
      simp

end

instance : DecidableEq PyVal := fun a b => decidable_of_iff _ (PyVal.beq_iff a b)

/-- Python `isinstance(x, dict)` on a parsed value. -/
def PyVal.isDict : PyVal → Bool
  | .dict _ => true
  | _ => false

/-- Python `isinstance(x, list)` on a parsed value. -/
def PyVal.isList : PyVal → Bool
  | .list _ => true
  | _ => false

/-- The `for user, permissions in user_permissions.items()` loop of
`find_shadow_admins` (src/main.py lines 79-87), over the remaining
dictionary entries.  Returns the `shadow_admins` accumulator (in append
order) together with the log events emitted by the loop body (in
emission order):

* a non-list permission value logs a warning and is skipped (`continue`);
* a user passing `all(perm in permissions for perm in
  effective_admin_permissions)` is appended and logged at info level. -/
def shadowAdminLoop (effective_admin_permissions : List PyVal) :
    List (String × PyVal) → List String × List (LogLevel × String)
  | [] => ([], [])
  | (user, permissions) :: rest =>
    match permissions with
    | PyVal.list perms =>
      if effective_admin_permissions.all (fun perm => decide (perm ∈ perms)) then
        let r := shadowAdminLoop effective_admin_permissions rest
        (user :: r.1,
          (LogLevel.info, "User " ++ user ++ " identified as a shadow admin.") :: r.2)
      else
        shadowAdminLoop effective_admin_permissions rest
    | _ =>
      let r := shadowAdminLoop effective_admin_permissions rest
      (r.1,
        (LogLevel.warning, "User " ++ user ++ " has invalid permissions format. Skipping.")
          :: r.2)

/-- `find_shadow_admins` (src/main.py lines 57-88) together with its
logging side effects: the returned username list, paired with the list
of log events it emits.

* If `user_permissions` is not a dict, it logs an error and returns `[]`.
* Otherwise, if `effective_admin_permissions` is not a list, it logs an
  error and returns `[]`.
* Otherwise it runs the per-user loop `shadowAdminLoop`. -/
def find_shadow_admins_logged (user_permissions effective_admin_permissions : PyVal) :
    List String × List (LogLevel × String) :=
  match user_permissions with
  | PyVal.dict entries =>
    match effective_admin_permissions with
    | PyVal.list admins => shadowAdminLoop admins entries
    | _ => ([], [(LogLevel.error, "Invalid effective admin permissions data. Expected a list.")])
  | _ => ([], [(LogLevel.error, "Invalid user permissions data. Expected a dictionary.")])

/-- The value returned by `find_shadow_admins` (src/main.py lines 57-88):
the username list, forgetting the log events. -/
def find_shadow_admins (user_permissions effective_admin_permissions : PyVal) :
    List String :=
  (find_shadow_admins_logged user_permissions effective_admin_permissions).1

/-- The keys of a parsed dictionary value, in insertion order (empty for
a non-dictionary). -/
def pyKeys : PyVal → List String
  | PyVal.dict entries => entries.map Prod.fst
  | _ => []

/-- Membership in the loop result: a username is collected iff some
entry pairs it with a list value containing every admin permission. -/
theorem shadowAdminLoop_mem_iff (A : List PyVal) (entries : List (String × PyVal)) (u : String) :
    u ∈ (shadowAdminLoop A entries).1 ↔
      ∃ ps, (u, PyVal.list ps) ∈ entries ∧ ∀ a ∈ A, a ∈ ps := by
  induction entries with
  | nil => simp [shadowAdminLoop]
  | cons e rest ih =>
    obtain ⟨user, permissions⟩ := e
    cases permissions with
    | list ps =>
      cases hc : A.all (fun perm => decide (perm ∈ ps)) with
      | true =>
        have hsub : ∀ a ∈ A, a ∈ ps := by
          intro a ha
          simpa using List.all_eq_true.mp hc a ha
        simp only [shadowAdminLoop, hc]
        rw [if_pos trivial]
        show u ∈ user :: (shadowAdminLoop A rest).1 ↔ _
        rw [List.mem_cons, ih]
        constructor
        · rintro (rfl | ⟨qs, hq, hq2⟩)
          · exact ⟨ps, List.mem_cons_self _ _, hsub⟩
          · exact ⟨qs, List.mem_cons_of_mem _ hq, hq2⟩
        · rintro ⟨qs, hq, hq2⟩
          rcases List.mem_cons.mp hq with h | h
          · exact Or.inl (congrArg Prod.fst h)
          · exact Or.inr ⟨qs, h, hq2⟩
      | false =>
        have hnsub : ¬ ∀ a ∈ A, a ∈ ps := by
          intro hall
          have hall2 : A.all (fun perm => decide (perm ∈ ps)) = true := by
            rw [List.all_eq_true]
            intro a ha
            simpa using hall a ha
          rw [hc] at hall2
          exact Bool.false_ne_true hall2
        simp only [shadowAdminLoop, hc]
        rw [if_neg Bool.false_ne_true]
        rw [ih]
        constructor
        · rintro ⟨qs, hq, hq2⟩
          exact ⟨qs, List.mem_cons_of_mem _ hq, hq2⟩
        · rintro ⟨qs, hq, hq2⟩
          rcases List.mem_cons.mp hq with h | h
          · have hqs : qs = ps := by
              have := congrArg Prod.snd h
              simpa using this
            exact absurd (hqs ▸ hq2) hnsub
          · exact ⟨qs, h, hq2⟩
    | str s => simp [shadowAdminLoop, ih]
    | int n => simp [shadowAdminLoop, ih]
    | bool b => simp [shadowAdminLoop, ih]
    | none => simp [shadowAdminLoop, ih]
    | dict d => simp [shadowAdminLoop, ih]

/-- The loop result is a sublist of the entry keys. -/
theorem shadowAdminLoop_sublist (A : List PyVal) (entries : List (String × PyVal)) :
    List.Sublist (shadowAdminLoop A entries).1 (entries.map Prod.fst) := by
  induction entries with
  | nil => simp [shadowAdminLoop]
  | cons e rest ih =>
    obtain ⟨user, permissions⟩ := e
    cases permissions with
    | list ps =>
      cases hc : A.all (fun perm => decide (perm ∈ ps)) with
      | true =>
        simp only [shadowAdminLoop, hc, List.map_cons]
        rw [if_pos trivial]
        exact List.Sublist.cons₂ user ih
      | false =>
        simp only [shadowAdminLoop, hc, List.map_cons]
        rw [if_neg Bool.false_ne_true]
        exact List.Sublist.cons user ih
    | str s => simpa [shadowAdminLoop] using List.Sublist.cons user ih
    | int n => simpa [shadowAdminLoop] using List.Sublist.cons user ih
    | bool b => simpa [shadowAdminLoop] using List.Sublist.cons user ih
    | none => simpa [shadowAdminLoop] using List.Sublist.cons user ih
    | dict d => simpa [shadowAdminLoop] using List.Sublist.cons user ih

/-- Python `x.items()`: succeeds on a dict, raises `AttributeError`
otherwise. -/
def py_items : PyVal → Except String (List (String × PyVal))
  | PyVal.dict entries => Except.ok entries
  | _ => Except.error "AttributeError: object has no attribute items"

/-- Iterating a Python value as a list: succeeds on a list, raises
`TypeError` otherwise. -/
def py_iter_list : PyVal → Except String (List PyVal)
  | PyVal.list xs => Except.ok xs
  | _ => Except.error "TypeError: object is not iterable"

/-- `find_shadow_admins` (src/main.py lines 69-88) with the fallible
Python operations it performs made explicit in the `Except` monad: the
two `isinstance` guards return `[]` early, and only then are
`user_permissions.items()` and the iteration over
`effective_admin_permissions` performed. -/
def find_shadow_admins_exc (user_permissions effective_admin_permissions : PyVal) :
    Except String (List String) :=
  if user_permissions.isDict = false then Except.ok [] else
  if effective_admin_permissions.isList = false then Except.ok [] else
  do
    let entries ← py_items user_permissions
    let admins ← py_iter_list effective_admin_permissions
    Except.ok (shadowAdminLoop admins entries).1

/-- Two permission values denote the same membership test: either both
are lists with the same elements (as sets), or they are equal non-list
values. -/
def permSetEquiv (a b : PyVal) : Prop :=
  (∃ xs ys, a = PyVal.list xs ∧ b = PyVal.list ys ∧ ∀ x : PyVal, x ∈ xs ↔ x ∈ ys) ∨
    (a = b ∧ a.isList = false)

/-- The subset test of src/main.py line 84 depends on the admin list and
the permission list only through their membership predicates. -/
theorem all_mem_congr (admins admins2 xs ys : List PyVal)
    (hA : ∀ x : PyVal, x ∈ admins ↔ x ∈ admins2)
    (hmem : ∀ x : PyVal, x ∈ xs ↔ x ∈ ys) :
    admins.all (fun perm => decide (perm ∈ xs))
      = admins2.all (fun perm => decide (perm ∈ ys)) := by
  rw [Bool.eq_iff_iff]
  rw [List.all_eq_true, List.all_eq_true]
  constructor
  · intro h a ha
    have := h a ((hA a).mpr ha)
    simp only [decide_eq_true_eq] at this ⊢
    exact (hmem a).mp this
  · intro h a ha
    have := h a ((hA a).mp ha)
    simp only [decide_eq_true_eq] at this ⊢
    exact (hmem a).mpr this

/-- C1: a username is in the result of `find_shadow_admins` iff it is a
key of the user dictionary whose value is a list containing every
element of the admin permission list. -/
theorem find_shadow_admins_mem_iff (entries : List (String × PyVal))
    (admins : List PyVal) (u : String) :
    u ∈ find_shadow_admins (PyVal.dict entries) (PyVal.list admins) ↔
      ∃ ps, (u, PyVal.list ps) ∈ entries ∧ ∀ a ∈ admins, a ∈ ps :=
  shadowAdminLoop_mem_iff admins entries u

/-- C2: with an empty admin permission list, `find_shadow_admins`
returns every user whose permission value is a list, in order. -/
theorem find_shadow_admins_empty_admins (entries : List (String × PyVal)) :
    find_shadow_admins (PyVal.dict entries) (PyVal.list []) =
      (entries.filter (fun e => e.2.isList)).map Prod.fst := by
  show (shadowAdminLoop [] entries).1 = _
  induction entries with
  | nil => rfl
  | cons e rest ih =>
    obtain ⟨user, permissions⟩ := e
    cases permissions with
    | list ps => simp [shadowAdminLoop, List.filter_cons, PyVal.isList, ih]
    | str s => simp [shadowAdminLoop, List.filter_cons, PyVal.isList, ih]
    | int n => simp [shadowAdminLoop, List.filter_cons, PyVal.isList, ih]
    | bool b => simp [shadowAdminLoop, List.filter_cons, PyVal.isList, ih]
    | none => simp [shadowAdminLoop, List.filter_cons, PyVal.isList, ih]
    | dict d => simp [shadowAdminLoop, List.filter_cons, PyVal.isList, ih]

/-- C3: the result of `find_shadow_admins` is a subsequence of the keys
of the user dictionary in their insertion order. -/
theorem find_shadow_admins_sublist_keys (user_permissions effective_admin_permissions : PyVal) :
    List.Sublist (find_shadow_admins user_permissions effective_admin_permissions)
      (pyKeys user_permissions) := by
  cases user_permissions with
  | dict entries =>
    cases effective_admin_permissions with
    | list admins => exact shadowAdminLoop_sublist admins entries
    | str s => exact List.nil_sublist _
    | int n => exact List.nil_sublist _
    | bool b => exact List.nil_sublist _
    | none => exact List.nil_sublist _
    | dict d => exact List.nil_sublist _
  | str s => exact List.nil_sublist _
  | int n => exact List.nil_sublist _
  | bool b => exact List.nil_sublist _
  | none => exact List.nil_sublist _
  | list xs => exact List.nil_sublist _

/-- C6: `find_shadow_admins` never raises: with its fallible Python
operations made explicit, it always produces `Except.ok` of the returned
username list, for inputs of every shape. -/
theorem find_shadow_admins_never_raises (user_permissions effective_admin_permissions : PyVal) :
    find_shadow_admins_exc user_permissions effective_admin_permissions
      = Except.ok (find_shadow_admins user_permissions effective_admin_permissions) := by
  cases user_permissions <;> cases effective_admin_permissions <;> rfl

/-- C4: if the user permissions value is not a dict, or the admin
permissions value is not a list, `find_shadow_admins` returns `[]` and
emits an error-level log event. -/
theorem find_shadow_admins_invalid_inputs (user_permissions effective_admin_permissions : PyVal)
    (h : user_permissions.isDict = false ∨ effective_admin_permissions.isList = false) :
    find_shadow_admins user_permissions effective_admin_permissions = [] ∧
      ∃ msg, (LogLevel.error, msg)
        ∈ (find_shadow_admins_logged user_permissions effective_admin_permissions).2 := by
  cases user_permissions with
  | dict entries =>
    cases effective_admin_permissions with
    | list admins =>
      rcases h with h | h
      · exact absurd h (by simp [PyVal.isDict])
      · exact absurd h (by simp [PyVal.isList])
    | str s =>
      exact ⟨rfl, "Invalid effective admin permissions data. Expected a list.", by simp [find_shadow_admins_logged]⟩
    | int n =>
      exact ⟨rfl, "Invalid effective admin permissions data. Expected a list.", by simp [find_shadow_admins_logged]⟩
    | bool b =>
      exact ⟨rfl, "Invalid effective admin permissions data. Expected a list.", by simp [find_shadow_admins_logged]⟩
    | none =>
      exact ⟨rfl, "Invalid effective admin permissions data. Expected a list.", by simp [find_shadow_admins_logged]⟩
    | dict d =>
      exact ⟨rfl, "Invalid effective admin permissions data. Expected a list.", by simp [find_shadow_admins_logged]⟩
  | str s =>
    exact ⟨rfl, "Invalid user permissions data. Expected a dictionary.", by simp [find_shadow_admins_logged]⟩
  | int n =>
    exact ⟨rfl, "Invalid user permissions data. Expected a dictionary.", by simp [find_shadow_admins_logged]⟩
  | bool b =>
    exact ⟨rfl, "Invalid user permissions data. Expected a dictionary.", by simp [find_shadow_admins_logged]⟩
  | none =>
    exact ⟨rfl, "Invalid user permissions data. Expected a dictionary.", by simp [find_shadow_admins_logged]⟩
  | list xs =>
    exact ⟨rfl, "Invalid user permissions data. Expected a dictionary.", by simp [find_shadow_admins_logged]⟩

/-- Witness for C4: a non-dict user permissions value yields the empty
result and an error log. -/
theorem find_shadow_admins_invalid_inputs_witness :
    (PyVal.int 0).isDict = false ∧
      (find_shadow_admins (PyVal.int 0) (PyVal.list []) = [] ∧
        ∃ msg, (LogLevel.error, msg)
          ∈ (find_shadow_admins_logged (PyVal.int 0) (PyVal.list [])).2) :=
  ⟨rfl, find_shadow_admins_invalid_inputs (PyVal.int 0) (PyVal.list []) (Or.inl rfl)⟩

/-- C5: an entry whose permission value is not a list is skipped: the
result is the same as on the dictionary with that entry removed. -/
theorem find_shadow_admins_skip_invalid_entry (pre post : List (String × PyVal))
    (u : String) (v : PyVal) (effective_admin_permissions : PyVal)
    (h : v.isList = false) :
    find_shadow_admins (PyVal.dict (pre ++ (u, v) :: post)) effective_admin_permissions =
      find_shadow_admins (PyVal.dict (pre ++ post)) effective_admin_permissions := by
  cases effective_admin_permissions with
  | list admins =>
    show (shadowAdminLoop admins (pre ++ (u, v) :: post)).1
      = (shadowAdminLoop admins (pre ++ post)).1
    induction pre with
    | nil =>
      simp only [List.nil_append]
      cases v with
      | list xs => exact absurd h (by simp [PyVal.isList])
      | str s => rfl
      | int n => rfl
      | bool b => rfl
      | none => rfl
      | dict d => rfl
    | cons e pre ih =>
      obtain ⟨user, permissions⟩ := e
      simp only [List.cons_append]
      cases permissions with
      | list ps =>
        cases hc : admins.all (fun perm => decide (perm ∈ ps)) with
        | true =>
          simp only [shadowAdminLoop, hc]
          rw [if_pos trivial, if_pos trivial]
          show user :: (shadowAdminLoop admins (pre ++ (u, v) :: post)).1
            = user :: (shadowAdminLoop admins (pre ++ post)).1
          rw [ih]
        | false =>
          simp only [shadowAdminLoop, hc]
          rw [if_neg Bool.false_ne_true, if_neg Bool.false_ne_true]
          exact ih
      | str s => simpa [shadowAdminLoop] using ih
      | int n => simpa [shadowAdminLoop] using ih
      | bool b => simpa [shadowAdminLoop] using ih
      | none => simpa [shadowAdminLoop] using ih
      | dict d => simpa [shadowAdminLoop] using ih
  | str s => rfl
  | int n => rfl
  | bool b => rfl
  | none => rfl
  | dict d => rfl

/-- Witness for C5: skipping the malformed `carol` entry leaves the
result unchanged. -/
theorem find_shadow_admins_skip_invalid_entry_witness :
    (PyVal.str "not-a-list").isList = false ∧
      find_shadow_admins
          (PyVal.dict ([] ++ ("carol", PyVal.str "not-a-list") :: [("alice", PyVal.list [])]))
          (PyVal.list []) =
        find_shadow_admins (PyVal.dict ([] ++ [("alice", PyVal.list [])])) (PyVal.list []) :=
  ⟨rfl, find_shadow_admins_skip_invalid_entry [] [("alice", PyVal.list [])] "carol"
    (PyVal.str "not-a-list") (PyVal.list []) rfl⟩

/-- C7: the result depends on the admin list and on each user's
permission list only through their underlying sets: replacing the admin
list and each list-valued entry by membership-equivalent lists (any
reordering or duplication) leaves the result unchanged. -/
theorem find_shadow_admins_set_semantics (entries entries2 : List (String × PyVal))
    (admins admins2 : List PyVal)
    (hA : ∀ x : PyVal, x ∈ admins ↔ x ∈ admins2)
    (hE : List.Forall₂ (fun e e2 => e.1 = e2.1 ∧ permSetEquiv e.2 e2.2) entries entries2) :
    find_shadow_admins (PyVal.dict entries) (PyVal.list admins)
      = find_shadow_admins (PyVal.dict entries2) (PyVal.list admins2) := by
  show (shadowAdminLoop admins entries).1 = (shadowAdminLoop admins2 entries2).1
  induction hE with
  | nil => rfl
  | cons he hrest ih =>
    rename_i e1 e2 l1 l2
    obtain ⟨hkey, hval⟩ := he
    obtain ⟨u1, v1⟩ := e1
    obtain ⟨u2, v2⟩ := e2
    have hk : u1 = u2 := hkey
    subst hk
    rcases hval with ⟨xs, ys, hax, hby, hmem⟩ | ⟨heq, hnl⟩
    · have hax2 : v1 = PyVal.list xs := hax
      have hby2 : v2 = PyVal.list ys := hby
      subst hax2
      subst hby2
      have hc := all_mem_congr admins admins2 xs ys hA hmem
      cases hcc : admins.all (fun perm => decide (perm ∈ xs)) with
      | true =>
        have hcc2 : admins2.all (fun perm => decide (perm ∈ ys)) = true := by
          rw [← hc]; exact hcc
        simp only [shadowAdminLoop, hcc, hcc2]
        rw [if_pos trivial, if_pos trivial]
        show u1 :: (shadowAdminLoop admins l1).1 = u1 :: (shadowAdminLoop admins2 l2).1
        rw [ih]
      | false =>
        have hcc2 : admins2.all (fun perm => decide (perm ∈ ys)) = false := by
          rw [← hc]; exact hcc
        simp only [shadowAdminLoop, hcc, hcc2]
        rw [if_neg Bool.false_ne_true, if_neg Bool.false_ne_true]
        exact ih
    · have heq2 : v1 = v2 := heq
      subst heq2
      cases v1 with
      | list xs => exact absurd hnl (by simp [PyVal.isList])
      | str s => simpa [shadowAdminLoop] using ih
      | int n => simpa [shadowAdminLoop] using ih
      | bool b => simpa [shadowAdminLoop] using ih
      | none => simpa [shadowAdminLoop] using ih
      | dict d => simpa [shadowAdminLoop] using ih

/-- Witness for C7: reordering and duplicating both the admin list and
a user's permission list leaves the result unchanged. -/
theorem find_shadow_admins_set_semantics_witness :
    (∀ x : PyVal, x ∈ [PyVal.str "a", PyVal.str "b"]
        ↔ x ∈ [PyVal.str "b", PyVal.str "a", PyVal.str "a"]) ∧
      List.Forall₂ (fun e e2 => e.1 = e2.1 ∧ permSetEquiv e.2 e2.2)
        [("alice", PyVal.list [PyVal.str "a", PyVal.str "b"]), ("bob", PyVal.int 3)]
        [("alice", PyVal.list [PyVal.str "b", PyVal.str "a", PyVal.str "a"]), ("bob", PyVal.int 3)] ∧
      find_shadow_admins
          (PyVal.dict [("alice", PyVal.list [PyVal.str "a", PyVal.str "b"]), ("bob", PyVal.int 3)])
          (PyVal.list [PyVal.str "a", PyVal.str "b"])
        = find_shadow_admins
            (PyVal.dict [("alice", PyVal.list [PyVal.str "b", PyVal.str "a", PyVal.str "a"]),
              ("bob", PyVal.int 3)])
            (PyVal.list [PyVal.str "b", PyVal.str "a", PyVal.str "a"]) := by
  have hA : ∀ x : PyVal, x ∈ [PyVal.str "a", PyVal.str "b"]
      ↔ x ∈ [PyVal.str "b", PyVal.str "a", PyVal.str "a"] := by
    intro x
    simp only [List.mem_cons, List.not_mem_nil, or_false]
    tauto
  have hE : List.Forall₂ (fun e e2 => e.1 = e2.1 ∧ permSetEquiv e.2 e2.2)
      [("alice", PyVal.list [PyVal.str "a", PyVal.str "b"]), ("bob", PyVal.int 3)]
      [("alice", PyVal.list [PyVal.str "b", PyVal.str "a", PyVal.str "a"]), ("bob", PyVal.int 3)] :=
    List.Forall₂.cons ⟨rfl, Or.inl ⟨_, _, rfl, rfl, hA⟩⟩
      (List.Forall₂.cons ⟨rfl, Or.inr ⟨rfl, rfl⟩⟩ List.Forall₂.nil)
  exact ⟨hA, hE, find_shadow_admins_set_semantics _ _ _ _ hA hE⟩

/-- C8: on the documented example, the admin profile
`["/etc/shadow", "/etc/sudoers"]` flags exactly `alice`, and the empty
admin profile flags both users in order. -/
theorem find_shadow_admins_concrete_example :
    find_shadow_admins
        (PyVal.dict
          [("alice", PyVal.list [PyVal.str "/etc/shadow", PyVal.str "/etc/sudoers",
              PyVal.str "/var/log/auth.log"]),
            ("bob", PyVal.list [PyVal.str "/home/bob/file1"])])
        (PyVal.list [PyVal.str "/etc/shadow", PyVal.str "/etc/sudoers"]) = ["alice"] ∧
      find_shadow_admins
        (PyVal.dict
          [("alice", PyVal.list [PyVal.str "/etc/shadow", PyVal.str "/etc/sudoers",
              PyVal.str "/var/log/auth.log"]),
            ("bob", PyVal.list [PyVal.str "/home/bob/file1"])])
        (PyVal.list []) = ["alice", "bob"] :=
  ⟨by decide, by decide⟩

/-- C9: the result contains no duplicate usernames when the dictionary
keys are distinct. -/
theorem find_shadow_admins_nodup (user_permissions effective_admin_permissions : PyVal)
    (h : (pyKeys user_permissions).Nodup) :
    (find_shadow_admins user_permissions effective_admin_permissions).Nodup := by
  cases user_permissions with
  | dict entries =>
    cases effective_admin_permissions with
    | list admins => exact List.Nodup.sublist (shadowAdminLoop_sublist admins entries) h
    | str s => exact List.nodup_nil
    | int n => exact List.nodup_nil
    | bool b => exact List.nodup_nil
    | none => exact List.nodup_nil
    | dict d => exact List.nodup_nil
  | str s => exact List.nodup_nil
  | int n => exact List.nodup_nil
  | bool b => exact List.nodup_nil
  | none => exact List.nodup_nil
  | list xs => exact List.nodup_nil

/-- Witness for C9: a two-user dictionary with distinct keys yields a
duplicate-free result. -/
theorem find_shadow_admins_nodup_witness :
    (pyKeys (PyVal.dict [("alice", PyVal.list []), ("bob", PyVal.list [])])).Nodup ∧
      (find_shadow_admins (PyVal.dict [("alice", PyVal.list []), ("bob", PyVal.list [])])
        (PyVal.list [])).Nodup :=
  ⟨by decide, find_shadow_admins_nodup _ _ (by decide)⟩

/-- C10: enlarging the admin permission set never adds a shadow admin:
every user returned for the larger profile is returned for the smaller
one. -/
theorem find_shadow_admins_antitone (entries : List (String × PyVal))
    (A B : List PyVal) (hAB : ∀ x ∈ A, x ∈ B) (u : String)
    (hu : u ∈ find_shadow_admins (PyVal.dict entries) (PyVal.list B)) :
    u ∈ find_shadow_admins (PyVal.dict entries) (PyVal.list A) := by
  obtain ⟨ps, hps, hsub⟩ := (shadowAdminLoop_mem_iff B entries u).mp hu
  exact (shadowAdminLoop_mem_iff A entries u).mpr
    ⟨ps, hps, fun a ha => hsub a (hAB a ha)⟩

/-- Witness for C10: a user flagged for the larger admin profile is also
flagged for the smaller one. -/
theorem find_shadow_admins_antitone_witness :
    (∀ x ∈ ([PyVal.str "a"] : List PyVal), x ∈ [PyVal.str "a", PyVal.str "b"]) ∧
      "alice" ∈ find_shadow_admins
        (PyVal.dict [("alice", PyVal.list [PyVal.str "a", PyVal.str "b"])])
        (PyVal.list [PyVal.str "a", PyVal.str "b"]) ∧
      "alice" ∈ find_shadow_admins
        (PyVal.dict [("alice", PyVal.list [PyVal.str "a", PyVal.str "b"])])
        (PyVal.list [PyVal.str "a"]) :=
  ⟨by decide, by decide,
    find_shadow_admins_antitone [("alice", PyVal.list [PyVal.str "a", PyVal.str "b"])]
      [PyVal.str "a"] [PyVal.str "a", PyVal.str "b"] (by decide) "alice" (by decide)⟩
